import Mathlib

/-!
# Verification of the docker-sqlite migration subsystem

A shallow embedding of the package's migration planner/runner
(`src/migrate.ts`), query helper (`src/query.ts`) and scoped connection
manager (`connect.ts`), together with proofs of the specified properties.

The embedded SQL engine is out of scope for the package itself (it is
consumed as a black box), so the embedding is parameterized by an
`Engine σ`: an abstract schema state `σ`, a script executor `exec`
(modelling `db.exec`, which mutates in place and may raise), and a
possible engine-level failure of the ledger `INSERT` (`insertErr`,
modelling e.g. a previous script having broken the `_migrations` table).
The migration ledger (`_migrations(version PRIMARY KEY, description, applied_at)`)
is modelled explicitly as a list of `(version, description)` rows in
insertion order; the `PRIMARY KEY` uniqueness constraint is enforced by
the modelled `INSERT`.
-/

namespace DockerSqlite

/-- A caller-declared migration (interface `Migration` in `types.ts`):
version, description, `up` script, optional `down` script. -/
structure Migration where
  version : Nat
  description : String
  up : String
  down : Option String := none
deriving Repr, DecidableEq

/-- Result of `getMigrationStatus` (interface `MigrationStatus` in `types.ts`). -/
structure MigrationStatus where
  currentVersion : Nat
  appliedMigrations : List Nat
  pendingMigrations : List Migration
deriving Repr, DecidableEq

/-- Database state visible to the migration subsystem: the `_migrations`
ledger rows (version, description) in insertion order, plus the abstract
schema state `σ` owned by the engine. -/
structure DBState (σ : Type) where
  ledger : List (Nat × String)
  schema : σ
deriving Repr, DecidableEq

/-- Black-box engine collaborator. `exec s sch` runs a raw script against
schema state `sch` and returns a possible error message together with the
(possibly partially) mutated schema — `db.exec` in sql.js mutates in place
even when it raises. `insertErr v d sch` is the engine-level failure, if
any, of `INSERT INTO _migrations (version, description) VALUES (?, ?)`
given the current schema state (for example when a script has dropped the
`_migrations` table). -/
structure Engine (σ : Type) where
  exec : String → σ → Option String × σ
  insertErr : Nat → String → σ → Option String

variable {σ : Type}

/-- The versions recorded in the ledger, in row order. -/
def ledgerVersions (st : DBState σ) : List Nat :=
  st.ledger.map Prod.fst

/-- Ordering of migrations by version, as used by
`.sort((a, b) => a.version - b.version)` in `getMigrationStatus`. -/
def leByVersion (a b : Migration) : Prop :=
  a.version ≤ b.version

instance : DecidableRel leByVersion :=
  fun a b => inferInstanceAs (Decidable (a.version ≤ b.version))

instance : IsTotal Migration leByVersion :=
  ⟨fun a b => Nat.le_total a.version b.version⟩

instance : IsTrans Migration leByVersion :=
  ⟨fun _ _ _ => Nat.le_trans⟩

/-- `ensureMigrationsTable`: `CREATE TABLE IF NOT EXISTS _migrations …` is
idempotent housekeeping; in the model the ledger relation always exists,
so this is the identity on the state. -/
def ensureMigrationsTable (st : DBState σ) : DBState σ :=
  st

/-- `getMigrationStatus(db, migrations)` from `migrate.ts`:
read the ledger versions into a set (`SELECT version FROM _migrations
ORDER BY version`, then `new Set`), sort them ascending for
`appliedMigrations`, take the last as `currentVersion` (0 if none), and
compute `pendingMigrations` as the declared migrations whose version is
absent from the applied set, sorted ascending by version. -/
def getMigrationStatus (migrations : List Migration) (st : DBState σ) :
    MigrationStatus :=
  let st0 := ensureMigrationsTable st
  let appliedVersions := (ledgerVersions st0).dedup
  let appliedMigrations := List.insertionSort (· ≤ ·) appliedVersions
  let currentVersion := appliedMigrations.getLast?.getD 0
  let pendingMigrations :=
    List.insertionSort leByVersion
      (migrations.filter (fun m => !(appliedVersions.contains m.version)))
  { currentVersion := currentVersion
    appliedMigrations := appliedMigrations
    pendingMigrations := pendingMigrations }

/-- The ledger `INSERT` performed after a successful `up` script:
`execute(db, "INSERT INTO _migrations (version, description) VALUES (?, ?)", …)`.
It fails on a `version` primary-key violation, or when the engine itself
rejects the insert; otherwise it appends the row. A failed single INSERT
statement mutates nothing. -/
def insertLedger (e : Engine σ) (v : Nat) (d : String) (st : DBState σ) :
    Option String × DBState σ :=
  if (ledgerVersions st).contains v then
    (some "UNIQUE constraint failed: _migrations.version", st)
  else
    match e.insertErr v d st.schema with
    | some msg => (some msg, st)
    | none => (none, { st with ledger := st.ledger ++ [(v, d)] })

/-- One iteration of the `runMigrations` loop body (inside the `try`):
run the migration's `up` script with `execMultiple`, then record it as
applied. Returns the error raised, if any, together with the resulting
state (the schema keeps any mutations the failing script performed). -/
def applyOne (e : Engine σ) (m : Migration) (st : DBState σ) :
    Option String × DBState σ :=
  match e.exec m.up st.schema with
  | (some msg, sch) => (some msg, { st with schema := sch })
  | (none, sch) => insertLedger e m.version m.description { st with schema := sch }

/-- The error wrapping in `runMigrations`'s `catch` block:
`Failed to apply migration ${version} (${description}): ${cause}`. -/
def applyFailMessage (m : Migration) (cause : String) : String :=
  "Failed to apply migration " ++ toString m.version ++ " (" ++
    m.description ++ "): " ++ cause

/-- The `for (const migration of status.pendingMigrations)` loop of
`runMigrations`: apply each pending migration in order, accumulating the
applied ones; on the first failure re-raise the wrapped error and stop.
The state is returned in both outcomes (the JS code mutates `db` in
place, so state changes made before the throw survive it). -/
def runPending (e : Engine σ) :
    List Migration → DBState σ → Except String (List Migration) × DBState σ
  | [], st => (Except.ok [], st)
  | m :: rest, st =>
    match applyOne e m st with
    | (some cause, st1) => (Except.error (applyFailMessage m cause), st1)
    | (none, st1) =>
      match runPending e rest st1 with
      | (Except.ok applied, st2) => (Except.ok (m :: applied), st2)
      | (Except.error msg, st2) => (Except.error msg, st2)

/-- `runMigrations(db, migrations)` from `migrate.ts`: compute the status
once, then run the pending migrations in order. -/
def runMigrations (e : Engine σ) (migrations : List Migration)
    (st : DBState σ) : Except String (List Migration) × DBState σ :=
  runPending e (getMigrationStatus migrations st).pendingMigrations st

/-- Error message of `rollbackMigration` when the ledger's current version
is not in the declared list. -/
def notFoundMessage (v : Nat) : String :=
  "Migration " ++ toString v ++ " not found in migrations list"

/-- Error message of `rollbackMigration` when the matching declared
migration has no `down` script. -/
def noDownMessage (m : Migration) : String :=
  "Migration " ++ toString m.version ++ " (" ++ m.description ++
    ") has no down migration"

/-- Error wrapping of `rollbackMigration`'s `catch` block. -/
def rollbackFailMessage (v : Nat) (cause : String) : String :=
  "Failed to rollback migration " ++ toString v ++ ": " ++ cause

/-- `rollbackMigration(db, migrations)` from `migrate.ts`: compute status;
return `null` when `currentVersion` is the 0 sentinel; find the declared
migration with that version (error if absent, error if it has no `down`);
run its `down` script and delete that version's ledger row
(`DELETE FROM _migrations WHERE version = ?`). -/
def rollbackMigration (e : Engine σ) (migrations : List Migration)
    (st : DBState σ) : Except String (Option Migration) × DBState σ :=
  let status := getMigrationStatus migrations st
  if status.currentVersion = 0 then
    (Except.ok none, st)
  else
    match migrations.find? (fun m => m.version == status.currentVersion) with
    | none => (Except.error (notFoundMessage status.currentVersion), st)
    | some migration =>
      match migration.down with
      | none => (Except.error (noDownMessage migration), st)
      | some downScript =>
        match e.exec downScript st.schema with
        | (some cause, sch) =>
          (Except.error (rollbackFailMessage migration.version cause),
            { st with schema := sch })
        | (none, sch) =>
          (Except.ok (some migration),
            { ledger := st.ledger.filter (fun p => !(p.1 == migration.version))
              schema := sch })

/-- `createMigration(version, description, up, down?)` from `migrate.ts`. -/
def createMigration (version : Nat) (description : String) (up : String)
    (down : Option String := none) : Migration :=
  { version := version, description := description, up := up, down := down }

/-! ## Query helper (`src/query.ts`) -/

/-- Result of `query` (interface `QueryResult` in `types.ts`). -/
structure QueryResult (T : Type) where
  columns : List String
  rows : List T
deriving Repr, DecidableEq

/-- The `while (stmt.step()) { … }` loop of `query`: `stepRows` is the
sequence of rows the prepared statement will yield, `stmtCols` its
`getColumnNames()`. Column names are captured only once the first row has
been stepped to (`if (columns.length === 0) columns = stmt.getColumnNames()`),
and each row is pushed onto the accumulator. -/
def queryLoop {T : Type} (stmtCols : List String) :
    List T → List String → List T → List String × List T
  | [], columns, acc => (columns, acc)
  | r :: rest, columns, acc =>
    queryLoop stmtCols rest
      (if columns.isEmpty then stmtCols else columns) (acc ++ [r])

/-- `query(db, sql, params)` from `query.ts`, abstracted over the prepared
statement: given the statement's column names and the rows its execution
yields, return the captured columns and collected rows. -/
def query {T : Type} (stmtCols : List String) (stepRows : List T) :
    QueryResult T :=
  let (columns, rows) := queryLoop stmtCols stepRows [] []
  { columns := columns, rows := rows }

/-! ## Scoped connection manager (`connect.ts`) -/

/-- Outcome of a `withConnection` call: the value returned or error
propagated, and whether `saveDatabase` was invoked and whether
`db.close()` was invoked. -/
structure ConnResult (τ ε : Type) where
  result : Except ε τ
  saved : Bool
  closed : Bool

/-- `withConnection(config, fn)` from `connect.ts`, abstracted over its
effectful collaborators: `load` is `loadDatabase(config.dbPath)` (which
may throw), `fn` is the caller callback on the live handle `δ` (returning
a value and the mutated handle, or throwing), `save` is
`saveDatabase(db, config.dbPath)` (which may throw). The body is
`try { const r = await fn(db); await saveDatabase(db, path); return r }
finally { db.close(); }`: on `fn` success the image is persisted and the
result returned; on `fn` failure persistence is skipped and the error
propagates; `db.close()` runs in every branch that entered the `try`.
If `load` itself throws, the `try` is never entered, so neither save nor
close happen. -/
def withConnection {δ τ ε : Type} (load : Except ε δ)
    (fn : δ → Except ε (τ × δ)) (save : δ → Except ε Unit) :
    ConnResult τ ε :=
  match load with
  | Except.error e => { result := Except.error e, saved := false, closed := false }
  | Except.ok db =>
    match fn db with
    | Except.error e =>
      { result := Except.error e, saved := false, closed := true }
    | Except.ok (r, db1) =>
      match save db1 with
      | Except.error e =>
        { result := Except.error e, saved := true, closed := true }
      | Except.ok _ =>
        { result := Except.ok r, saved := true, closed := true }

/-! ## Auxiliary definitions and concrete fixtures -/

/-- The ledger row appended by a successful modelled `INSERT`. -/
def ledgerEntry (m : Migration) : Nat × String :=
  (m.version, m.description)

/-- Strict version ordering, used to show that sorted lists with pairwise
distinct versions are unique. -/
def ltByVersion (a b : Migration) : Prop :=
  a.version < b.version

instance : IsAntisymm Migration ltByVersion :=
  ⟨fun a b h1 h2 => absurd (Nat.lt_trans h1 h2) (Nat.lt_irrefl _)⟩

/-- A concrete engine over a script log: every script succeeds and is
appended to the log, except the script "FAIL" which raises a syntax
error (after being recorded, as `db.exec` applies prefix statements). -/
def logEngine : Engine (List String) :=
  { exec := fun s log =>
      if s = "FAIL" then (some "syntax error", log ++ [s])
      else (none, log ++ [s])
    insertErr := fun _ _ _ => none }

/-- A concrete engine in which a script may drop the `_migrations` table
itself: every script succeeds and is logged, but once the log contains
"DROP TABLE _migrations" the ledger INSERT fails as sqlite would
("no such table"). -/
def dropEngine : Engine (List String) :=
  { exec := fun s log => (none, log ++ [s])
    insertErr := fun _ _ log =>
      if log.contains "DROP TABLE _migrations" then
        some "no such table: _migrations"
      else none }

/-- Concrete migrations for witnesses. -/
def wm1 : Migration := { version := 1, description := "one", up := "U1", down := some "D1" }

def wm2 : Migration := { version := 2, description := "two", up := "U2", down := some "D2" }

def wm3 : Migration := { version := 3, description := "three", up := "U3", down := none }

def wmBad : Migration := { version := 2, description := "bad", up := "FAIL", down := none }

def wmDrop : Migration :=
  { version := 1, description := "drop ledger table"
    up := "DROP TABLE _migrations", down := none }

/-- Fresh database state. -/
def wSt0 : DBState (List String) := { ledger := [], schema := [] }

/-- A state whose ledger already records versions 1 and 3. -/
def wSt13 : DBState (List String) :=
  { ledger := [(1, "one"), (3, "three")], schema := [] }

/-- The state obtained by running `[wm1, wm2]` on a fresh database. -/
def wStA : DBState (List String) :=
  { ledger := [(1, "one"), (2, "two")], schema := ["U1", "U2"] }

/-! ## Helper lemmas -/

theorem contains_iff_mem {l : List Nat} {a : Nat} :
    l.contains a = true ↔ a ∈ l := by
  simp [List.contains]

theorem getMigrationStatus_applied (L : List Migration) (st : DBState σ) :
    (getMigrationStatus L st).appliedMigrations =
      List.insertionSort (· ≤ ·) (ledgerVersions st).dedup := rfl

theorem getMigrationStatus_current (L : List Migration) (st : DBState σ) :
    (getMigrationStatus L st).currentVersion =
      (getMigrationStatus L st).appliedMigrations.getLast?.getD 0 := rfl

theorem getMigrationStatus_pending (L : List Migration) (st : DBState σ) :
    (getMigrationStatus L st).pendingMigrations =
      List.insertionSort leByVersion
        (L.filter (fun m => !((ledgerVersions st).dedup.contains m.version))) := rfl

theorem applied_sorted (L : List Migration) (st : DBState σ) :
    (getMigrationStatus L st).appliedMigrations.Sorted (· ≤ ·) := by
  rw [getMigrationStatus_applied]
  exact List.sorted_insertionSort _ _

theorem applied_nodup (L : List Migration) (st : DBState σ) :
    (getMigrationStatus L st).appliedMigrations.Nodup := by
  rw [getMigrationStatus_applied]
  exact (List.perm_insertionSort _ _).nodup_iff.mpr (List.nodup_dedup _)

theorem mem_applied_iff (L : List Migration) (st : DBState σ) (v : Nat) :
    v ∈ (getMigrationStatus L st).appliedMigrations ↔ v ∈ ledgerVersions st := by
  rw [getMigrationStatus_applied]
  rw [(List.perm_insertionSort _ _).mem_iff]
  exact List.mem_dedup

/-- In a `≤`-sorted list every element is bounded by the last element. -/
theorem le_getLastD_of_sorted :
    ∀ {l : List Nat}, l.Sorted (· ≤ ·) → ∀ v ∈ l, v ≤ l.getLast?.getD 0
  | [], _, v, hv => absurd hv (List.not_mem_nil v)
  | [a], _, v, hv => by
    simp only [List.mem_singleton] at hv
    simp [hv]
  | a :: b :: t, hs, v, hv => by
    rw [List.getLast?_cons_cons]
    rcases List.mem_cons.mp hv with hva | hvt
    · have hab : v ≤ b := hva ▸ List.rel_of_sorted_cons hs b (List.mem_cons_self b t)
      exact le_trans hab
        (le_getLastD_of_sorted hs.of_cons b (List.mem_cons_self b t))
    · exact le_getLastD_of_sorted hs.of_cons v hvt

/-- The last element of a nonempty list is a member. -/
theorem getLastD_mem {l : List Nat} (h : l ≠ []) : l.getLast?.getD 0 ∈ l := by
  rw [List.getLast?_eq_getLast l h]
  exact List.getLast_mem h

theorem currentVersion_le (L : List Migration) (st : DBState σ) (v : Nat)
    (hv : v ∈ ledgerVersions st) :
    v ≤ (getMigrationStatus L st).currentVersion := by
  rw [getMigrationStatus_current]
  exact le_getLastD_of_sorted (applied_sorted L st) v
    ((mem_applied_iff L st v).mpr hv)

theorem currentVersion_eq_zero (L : List Migration) (st : DBState σ)
    (h : st.ledger = []) : (getMigrationStatus L st).currentVersion = 0 := by
  rw [getMigrationStatus_current, getMigrationStatus_applied]
  simp [ledgerVersions, h]

theorem applied_ne_nil (L : List Migration) (st : DBState σ)
    (h : st.ledger ≠ []) :
    (getMigrationStatus L st).appliedMigrations ≠ [] := by
  rw [getMigrationStatus_applied]
  intro hnil
  have : (ledgerVersions st).dedup = [] :=
    (hnil ▸ List.perm_insertionSort (· ≤ ·) (ledgerVersions st).dedup).symm.eq_nil
  rw [List.dedup_eq_nil] at this
  exact h (List.map_eq_nil_iff.mp this)

theorem currentVersion_mem (L : List Migration) (st : DBState σ)
    (h : st.ledger ≠ []) :
    (getMigrationStatus L st).currentVersion ∈ ledgerVersions st := by
  rw [getMigrationStatus_current]
  exact (mem_applied_iff L st _).mp (getLastD_mem (applied_ne_nil L st h))

theorem pending_sorted (L : List Migration) (st : DBState σ) :
    (getMigrationStatus L st).pendingMigrations.Sorted leByVersion := by
  rw [getMigrationStatus_pending]
  exact List.sorted_insertionSort _ _

theorem pending_perm_filter (L : List Migration) (st : DBState σ) :
    (getMigrationStatus L st).pendingMigrations.Perm
      (L.filter (fun m => !((ledgerVersions st).contains m.version))) := by
  rw [getMigrationStatus_pending]
  have hpred : ∀ m ∈ L,
      (!((ledgerVersions st).dedup.contains m.version)) =
        (!((ledgerVersions st).contains m.version)) := by
    intro m _
    congr 1
    by_cases hm : m.version ∈ ledgerVersions st
    · rw [contains_iff_mem.mpr hm,
        contains_iff_mem.mpr (List.mem_dedup.mpr hm)]
    · have h1 : (ledgerVersions st).contains m.version = false := by
        rw [← Bool.not_eq_true]; exact fun hc => hm (contains_iff_mem.mp hc)
      have h2 : (ledgerVersions st).dedup.contains m.version = false := by
        rw [← Bool.not_eq_true]
        exact fun hc => hm (List.mem_dedup.mp (contains_iff_mem.mp hc))
      rw [h1, h2]
  rw [List.filter_congr hpred]
  exact List.perm_insertionSort _ _

theorem mem_pending_iff (L : List Migration) (st : DBState σ) (m : Migration) :
    m ∈ (getMigrationStatus L st).pendingMigrations ↔
      m ∈ L ∧ m.version ∉ ledgerVersions st := by
  rw [(pending_perm_filter L st).mem_iff, List.mem_filter]
  constructor
  · rintro ⟨hmL, hb⟩
    refine ⟨hmL, fun hv => ?_⟩
    rw [contains_iff_mem.mpr hv] at hb
    simp at hb
  · rintro ⟨hmL, hv⟩
    refine ⟨hmL, ?_⟩
    have : (ledgerVersions st).contains m.version = false := by
      rw [← Bool.not_eq_true]; exact fun hc => hv (contains_iff_mem.mp hc)
    rw [this]; rfl

theorem insertLedger_ok_ledger {e : Engine σ} {v : Nat} {d : String}
    {st st' : DBState σ} (h : insertLedger e v d st = (none, st')) :
    st'.ledger = st.ledger ++ [(v, d)] ∧ st'.schema = st.schema := by
  unfold insertLedger at h
  split at h
  · simp at h
  · split at h
    · simp at h
    · simp only [Prod.mk.injEq] at h
      rw [← h.2]
      exact ⟨rfl, rfl⟩

theorem insertLedger_err_state {e : Engine σ} {v : Nat} {d : String}
    {st st' : DBState σ} {msg : String}
    (h : insertLedger e v d st = (some msg, st')) : st' = st := by
  unfold insertLedger at h
  split at h
  · simp only [Prod.mk.injEq] at h
    exact h.2.symm
  · split at h
    · simp only [Prod.mk.injEq] at h
      exact h.2.symm
    · simp at h

theorem applyOne_ok_ledger {e : Engine σ} {m : Migration} {st st' : DBState σ}
    (h : applyOne e m st = (none, st')) :
    st'.ledger = st.ledger ++ [ledgerEntry m] := by
  unfold applyOne at h
  split at h
  · simp at h
  · exact (insertLedger_ok_ledger h).1

theorem applyOne_err_ledger {e : Engine σ} {m : Migration} {st st' : DBState σ}
    {cause : String} (h : applyOne e m st = (some cause, st')) :
    st'.ledger = st.ledger := by
  unfold applyOne at h
  split at h
  · simp only [Prod.mk.injEq] at h
    rw [← h.2]
  · have := insertLedger_err_state h
    rw [this]

/-- On success, the applied-list returned by the loop is exactly the list
of pending migrations it was given. -/
theorem runPending_ok_list (e : Engine σ) :
    ∀ (ps : List Migration) (st : DBState σ) {l : List Migration}
      {st' : DBState σ}, runPending e ps st = (Except.ok l, st') → l = ps := by
  intro ps
  induction ps with
  | nil =>
    intro st l st' h
    simp only [runPending, Prod.mk.injEq, Except.ok.injEq] at h
    exact h.1.symm
  | cons m rest ih =>
    intro st l st' h
    unfold runPending at h
    cases happ : applyOne e m st with
    | mk o st1 =>
      rw [happ] at h
      cases o with
      | some cause => simp at h
      | none =>
        dsimp only at h
        cases hrec : runPending e rest st1 with
        | mk r st2 =>
          rw [hrec] at h
          cases r with
          | error msg => simp at h
          | ok applied =>
            simp only [Prod.mk.injEq, Except.ok.injEq] at h
            rw [← h.1, ih st1 hrec]

/-- On success, the loop appends exactly one ledger row per pending
migration, in order. -/
theorem runPending_ok_ledger (e : Engine σ) :
    ∀ (ps : List Migration) (st : DBState σ) {l : List Migration}
      {st' : DBState σ}, runPending e ps st = (Except.ok l, st') →
      st'.ledger = st.ledger ++ ps.map ledgerEntry := by
  intro ps
  induction ps with
  | nil =>
    intro st l st' h
    simp only [runPending, Prod.mk.injEq] at h
    rw [← h.2]
    simp
  | cons m rest ih =>
    intro st l st' h
    unfold runPending at h
    cases happ : applyOne e m st with
    | mk o st1 =>
      rw [happ] at h
      cases o with
      | some cause => simp at h
      | none =>
        dsimp only at h
        cases hrec : runPending e rest st1 with
        | mk r st2 =>
          rw [hrec] at h
          cases r with
          | error msg => simp at h
          | ok applied =>
            simp only [Prod.mk.injEq] at h
            rw [← h.2, ih st1 hrec, applyOne_ok_ledger happ]
            simp

/-- The loop over an appended list runs the first part, then the second
from the resulting state (stopping at the first error). -/
theorem runPending_append (e : Engine σ) :
    ∀ (xs ys : List Migration) (st : DBState σ),
      runPending e (xs ++ ys) st =
        match runPending e xs st with
        | (Except.ok l, st1) =>
          match runPending e ys st1 with
          | (Except.ok l2, st2) => (Except.ok (l ++ l2), st2)
          | (Except.error msg, st2) => (Except.error msg, st2)
        | (Except.error msg, st1) => (Except.error msg, st1) := by
  intro xs
  induction xs with
  | nil =>
    intro ys st
    simp only [List.nil_append, runPending]
    cases hys : runPending e ys st with
    | mk r st2 =>
      cases r with
      | error msg => rfl
      | ok l2 => simp
  | cons m rest ih =>
    intro ys st
    simp only [List.cons_append, runPending]
    cases happ : applyOne e m st with
    | mk o st1 =>
      cases o with
      | some cause => rfl
      | none =>
        dsimp only
        rw [List.append_eq, ih ys st1]
        cases hrest : runPending e rest st1 with
        | mk r st2 =>
          cases r with
          | error msg => rfl
          | ok l =>
            dsimp only
            cases hys : runPending e ys st2 with
            | mk r2 st3 =>
              cases r2 with
              | error msg => rfl
              | ok l2 => simp

/-- If the prefix of the pending list applies cleanly and the next
migration fails, the whole loop stops there with the wrapped error and
the failure state. -/
theorem runPending_fail (e : Engine σ) (pre : List Migration) (m : Migration)
    (post : List Migration) (st stm st' : DBState σ) (l : List Migration)
    (cause : String) (hpre : runPending e pre st = (Except.ok l, stm))
    (hm : applyOne e m stm = (some cause, st')) :
    runPending e (pre ++ m :: post) st =
      (Except.error (applyFailMessage m cause), st') := by
  rw [runPending_append, hpre]
  show (match runPending e (m :: post) stm with
        | (Except.ok l2, st2) => (Except.ok (l ++ l2), st2)
        | (Except.error msg, st2) => (Except.error msg, st2)) = _
  unfold runPending
  rw [hm]

/-- Conversely, a failing loop decomposes as: a prefix that applied
cleanly, a failing migration whose wrapped error is the result, and an
untouched suffix. -/
theorem runPending_error_split (e : Engine σ) :
    ∀ (ps : List Migration) (st : DBState σ) {msg : String} {st' : DBState σ},
      runPending e ps st = (Except.error msg, st') →
      ∃ pre m post l stm cause,
        ps = pre ++ m :: post ∧
        runPending e pre st = (Except.ok l, stm) ∧
        applyOne e m stm = (some cause, st') ∧
        msg = applyFailMessage m cause := by
  intro ps
  induction ps with
  | nil =>
    intro st msg st' h
    simp [runPending] at h
  | cons m rest ih =>
    intro st msg st' h
    unfold runPending at h
    cases happ : applyOne e m st with
    | mk o st1 =>
      rw [happ] at h
      cases o with
      | some cause =>
        dsimp only at h
        simp only [Prod.mk.injEq, Except.error.injEq] at h
        refine ⟨[], m, rest, [], st, cause, rfl, rfl, ?_, h.1.symm⟩
        rw [happ, h.2]
      | none =>
        dsimp only at h
        cases hrec : runPending e rest st1 with
        | mk r st2 =>
          rw [hrec] at h
          cases r with
          | ok applied => simp at h
          | error msg2 =>
            simp only [Prod.mk.injEq, Except.error.injEq] at h
            obtain ⟨pre, mf, post, l, stm, cause, hsplit, hpre, hfail, hmsg⟩ :=
              ih st1 (h.2 ▸ h.1 ▸ hrec)
            refine ⟨m :: pre, mf, post, m :: l, stm, cause,
              by rw [hsplit, List.cons_append], ?_, hfail, hmsg⟩
            show runPending e (m :: pre) st = _
            unfold runPending
            rw [happ]
            dsimp only
            rw [hpre]

/-- When every declared version is already in the ledger, nothing is
pending. -/
theorem pending_empty_of_covered (L : List Migration) (st : DBState σ)
    (h : ∀ m ∈ L, m.version ∈ ledgerVersions st) :
    (getMigrationStatus L st).pendingMigrations = [] := by
  have hp := pending_perm_filter L st
  have hf : L.filter (fun m => !((ledgerVersions st).contains m.version)) = [] := by
    rw [List.filter_eq_nil_iff]
    intro m hm
    rw [contains_iff_mem.mpr (h m hm)]
    simp
  rw [hf] at hp
  exact hp.eq_nil

theorem pending_nodup_versions (L : List Migration) (st : DBState σ)
    (h : (L.map Migration.version).Nodup) :
    ((getMigrationStatus L st).pendingMigrations.map Migration.version).Nodup := by
  have hp := (pending_perm_filter L st).map Migration.version
  rw [hp.nodup_iff]
  exact ((List.filter_sublist L).map Migration.version).nodup h

theorem sorted_lt_of_sorted_le_nodup {l : List Migration}
    (hs : l.Sorted leByVersion) (hn : (l.map Migration.version).Nodup) :
    l.Sorted ltByVersion := by
  have hne : l.Pairwise (fun a b => a.version ≠ b.version) :=
    List.pairwise_map.mp hn
  exact (List.Pairwise.and hs hne).imp
    (fun h => Nat.lt_of_le_of_ne h.1 h.2)

/-- The pending work list is determined by the set of declared migrations
when versions are pairwise distinct: any permutation of the declared
list yields the same (sorted) list. -/
theorem pending_eq_of_perm (L L' : List Migration) (st : DBState σ)
    (hperm : L.Perm L') (hnodup : (L.map Migration.version).Nodup) :
    (getMigrationStatus L st).pendingMigrations =
      (getMigrationStatus L' st).pendingMigrations := by
  have hnodup' : (L'.map Migration.version).Nodup :=
    ((hperm.map Migration.version).nodup_iff).mp hnodup
  have hp : (getMigrationStatus L st).pendingMigrations.Perm
      (getMigrationStatus L' st).pendingMigrations :=
    (pending_perm_filter L st).trans
      ((List.Perm.filter _ hperm).trans (pending_perm_filter L' st).symm)
  exact List.eq_of_perm_of_sorted hp
    (sorted_lt_of_sorted_le_nodup (pending_sorted L st)
      (pending_nodup_versions L st hnodup))
    (sorted_lt_of_sorted_le_nodup (pending_sorted L' st)
      (pending_nodup_versions L' st hnodup'))

/-! ## Claims -/

/-- C4: for every database state and declared migration list `L`,
`getMigrationStatus` returns `currentVersion` equal to the maximum
applied version in the ledger (0 if the ledger is empty),
`appliedMigrations` as the ascending duplicate-free list of the applied
versions, and `pendingMigrations` as exactly the members of `L` whose
version is absent from the applied set, sorted ascending by version; on
an empty ledger `pendingMigrations` is a permutation of `L` (hence, being
sorted, `L` sorted by version) and `currentVersion` is 0. -/
theorem getMigrationStatus_correct (L : List Migration) (st : DBState σ) :
    (st.ledger = [] → (getMigrationStatus L st).currentVersion = 0) ∧
    (st.ledger ≠ [] →
      (getMigrationStatus L st).currentVersion ∈ ledgerVersions st ∧
      ∀ v ∈ ledgerVersions st, v ≤ (getMigrationStatus L st).currentVersion) ∧
    (getMigrationStatus L st).appliedMigrations.Sorted (· ≤ ·) ∧
    (getMigrationStatus L st).appliedMigrations.Nodup ∧
    (∀ v, v ∈ (getMigrationStatus L st).appliedMigrations ↔
      v ∈ ledgerVersions st) ∧
    (getMigrationStatus L st).pendingMigrations.Sorted leByVersion ∧
    (getMigrationStatus L st).pendingMigrations.Perm
      (L.filter (fun m => !((ledgerVersions st).contains m.version))) ∧
    (∀ m, m ∈ (getMigrationStatus L st).pendingMigrations ↔
      m ∈ L ∧ m.version ∉ ledgerVersions st) ∧
    (st.ledger = [] → (getMigrationStatus L st).pendingMigrations.Perm L) := by
  refine ⟨currentVersion_eq_zero L st,
    fun h => ⟨currentVersion_mem L st h, fun v hv => currentVersion_le L st v hv⟩,
    applied_sorted L st, applied_nodup L st, mem_applied_iff L st,
    pending_sorted L st, pending_perm_filter L st, mem_pending_iff L st,
    fun h => ?_⟩
  have hfilter :
      L.filter (fun m => !((ledgerVersions st).contains m.version)) = L := by
    rw [List.filter_eq_self]
    intro m _
    have hlv : ledgerVersions st = [] := by
      unfold ledgerVersions
      rw [h]
      rfl
    rw [hlv]
    rfl
  have hpp := pending_perm_filter L st
  rw [hfilter] at hpp
  exact hpp

/-- Witness for C4 at a state whose ledger holds versions 1 and 3. -/
theorem getMigrationStatus_correct_witness :
    (getMigrationStatus [wm2, wm1] wSt13).currentVersion ∈ ledgerVersions wSt13 ∧
    ∀ v ∈ ledgerVersions wSt13,
      v ≤ (getMigrationStatus [wm2, wm1] wSt13).currentVersion :=
  (getMigrationStatus_correct [wm2, wm1] wSt13).2.1 (by decide)

/-- C7: ledger versions absent from the declared list are treated as
applied-but-unknown: `getMigrationStatus` (a total function, raising no
error) reports them in `appliedMigrations`, they take part in the
`currentVersion` maximum, and they are excluded from
`pendingMigrations`. -/
theorem status_unknown_versions (L : List Migration) (st : DBState σ)
    (v : Nat) (hv : v ∈ ledgerVersions st)
    (hnotL : ∀ m ∈ L, m.version ≠ v) :
    v ∈ (getMigrationStatus L st).appliedMigrations ∧
    v ≤ (getMigrationStatus L st).currentVersion ∧
    ∀ m ∈ (getMigrationStatus L st).pendingMigrations, m.version ≠ v :=
  ⟨(mem_applied_iff L st v).mpr hv, currentVersion_le L st v hv,
    fun m hm he => ((mem_pending_iff L st m).mp hm).2 (he ▸ hv)⟩

/-- Witness for C7: version 3 is in the ledger but not declared in
`[wm2, wm1]`. -/
theorem status_unknown_versions_witness :
    (3 : Nat) ∈ (getMigrationStatus [wm2, wm1] wSt13).appliedMigrations ∧
    3 ≤ (getMigrationStatus [wm2, wm1] wSt13).currentVersion ∧
    ∀ m ∈ (getMigrationStatus [wm2, wm1] wSt13).pendingMigrations,
      m.version ≠ 3 :=
  status_unknown_versions [wm2, wm1] wSt13 3 (by decide) (by decide)

/-- C9: if the caller callback raises inside `withConnection`, the handle
is still closed (the `finally` always runs), `saveDatabase` is never
invoked, and the callback's error propagates unchanged. -/
theorem withConnection_callback_error {δ τ ε : Type} (load : Except ε δ)
    (fn : δ → Except ε (τ × δ)) (save : δ → Except ε Unit) (db : δ)
    (err : ε) (hload : load = Except.ok db)
    (hfn : fn db = Except.error err) :
    withConnection load fn save =
      { result := Except.error err, saved := false, closed := true } := by
  subst hload
  unfold withConnection
  dsimp only
  rw [hfn]

/-- Witness for C9 with a concrete failing callback. -/
theorem withConnection_callback_error_witness :
    withConnection (Except.ok (0 : Nat))
      (fun _ => (Except.error "boom" : Except String (Nat × Nat)))
      (fun _ => Except.ok ()) =
      { result := Except.error "boom", saved := false, closed := true } :=
  withConnection_callback_error (Except.ok 0) _ _ 0 "boom" rfl rfl

/-- C10: a SELECT whose execution yields zero rows returns
`{ columns: [], rows: [] }` — the columns list stays empty whatever the
prepared statement's column names are, because `query` captures
`getColumnNames()` only after the first successful `step()`. -/
theorem query_empty_rows (T : Type) (stmtCols : List String) :
    query stmtCols ([] : List T) = { columns := [], rows := [] } := rfl

/-- C2: `rollbackMigration` never reverts more than one version per call:
on an empty ledger it returns the none-indicator without mutating
anything; whenever it succeeds with migration `m`, `m` is the declared
migration carrying the maximum applied version, exactly the ledger rows
of that one version are deleted, the new schema is the old one with only
`m`'s down script applied, and `m` is returned. Repeating the call hence
reverts one version at a time, most-recent first. -/
theorem rollback_single_step (e : Engine σ) (L : List Migration)
    (st : DBState σ) :
    (st.ledger = [] → rollbackMigration e L st = (Except.ok none, st)) ∧
    (∀ m st', rollbackMigration e L st = (Except.ok (some m), st') →
      m ∈ L ∧
      m.version ∈ ledgerVersions st ∧
      (∀ v ∈ ledgerVersions st, v ≤ m.version) ∧
      st'.ledger = st.ledger.filter (fun p => !(p.1 == m.version)) ∧
      ∃ d, m.down = some d ∧ e.exec d st.schema = (none, st'.schema)) := by
  constructor
  · intro h
    simp [rollbackMigration, currentVersion_eq_zero L st h]
  · intro m st' h
    simp only [rollbackMigration] at h
    split at h
    · simp at h
    · next hcv =>
      split at h
      · simp at h
      · next mig hfind =>
        split at h
        · simp at h
        · next dscr hdown =>
          split at h
          · next cause sch hexec => simp at h
          · next sch hexec =>
            simp only [Prod.mk.injEq, Except.ok.injEq, Option.some.injEq] at h
            obtain ⟨hm, hst⟩ := h
            have hne : st.ledger ≠ [] :=
              fun hnil => hcv (currentVersion_eq_zero L st hnil)
            have hver : m.version = (getMigrationStatus L st).currentVersion := by
              have hb0 := List.find?_some hfind
              have hb : (mig.version ==
                  (getMigrationStatus L st).currentVersion) = true := hb0
              exact hm ▸ eq_of_beq hb
            refine ⟨hm ▸ List.mem_of_find?_eq_some hfind,
              hver ▸ currentVersion_mem L st hne,
              fun v hv => hver ▸ currentVersion_le L st v hv, ?_,
              dscr, hm ▸ hdown, ?_⟩
            · rw [← hm, ← hst]
            · rw [← hst]
              exact hexec

/-- Witness for C2: with versions 1 and 2 applied, a rollback reverts
exactly version 2. -/
theorem rollback_single_step_witness :
    wm2 ∈ [wm1, wm2] ∧
    wm2.version ∈ ledgerVersions wStA ∧
    (∀ v ∈ ledgerVersions wStA, v ≤ wm2.version) ∧
    (DBState.mk [(1, "one")] ["U1", "U2", "D2"]).ledger =
      wStA.ledger.filter (fun p => !(p.1 == wm2.version)) ∧
    ∃ d, wm2.down = some d ∧
      logEngine.exec d wStA.schema =
        (none, (DBState.mk [(1, "one")] ["U1", "U2", "D2"]).schema) :=
  (rollback_single_step logEngine [wm1, wm2] wStA).2 wm2
    (DBState.mk [(1, "one")] ["U1", "U2", "D2"]) rfl

/-- C8: `rollbackMigration`'s precondition failures are distinct and
atomic: when the current version is nonzero but no declared migration
carries it, the call fails with the "not found in migrations list" error;
when the matching declared migration has no down script, it fails with
the "has no down migration" error; in both cases the state — ledger and
schema — is returned unchanged. -/
theorem rollback_error_cases (e : Engine σ) (L : List Migration)
    (st : DBState σ) :
    ((getMigrationStatus L st).currentVersion ≠ 0 →
      (∀ m ∈ L, m.version ≠ (getMigrationStatus L st).currentVersion) →
      rollbackMigration e L st =
        (Except.error (notFoundMessage (getMigrationStatus L st).currentVersion),
          st)) ∧
    (∀ m, (getMigrationStatus L st).currentVersion ≠ 0 →
      L.find? (fun x => x.version == (getMigrationStatus L st).currentVersion) =
        some m →
      m.down = none →
      rollbackMigration e L st = (Except.error (noDownMessage m), st)) := by
  constructor
  · intro hcv hnone
    have hfind : L.find?
        (fun x => x.version == (getMigrationStatus L st).currentVersion) =
          none := by
      rw [List.find?_eq_none]
      intro x hx hb
      exact hnone x hx (eq_of_beq hb)
    simp only [rollbackMigration]
    rw [if_neg hcv, hfind]
  · intro m hcv hfind hdown
    simp only [rollbackMigration]
    rw [if_neg hcv, hfind]
    dsimp only
    rw [hdown]

/-- Witness for C8: ledger at version 3 with it missing from the declared
list, and a declared version-3 migration without a down script. -/
theorem rollback_error_cases_witness :
    rollbackMigration logEngine [wm2] wSt13 =
      (Except.error
        (notFoundMessage (getMigrationStatus [wm2] wSt13).currentVersion),
        wSt13) ∧
    rollbackMigration logEngine [wm1, wm3] wSt13 =
      (Except.error (noDownMessage wm3), wSt13) :=
  ⟨(rollback_error_cases logEngine [wm2] wSt13).1 (by decide) (by decide),
    (rollback_error_cases logEngine [wm1, wm3] wSt13).2 wm3 (by decide)
      (by decide) rfl⟩

/-- C1: fail-fast. If the pending work list splits as
`pre ++ m :: post` where `pre` applies cleanly and `m`'s apply step (its
up script, or its ledger INSERT) raises `cause`, then `runMigrations`
stops immediately with the wrapped error
`applyFailMessage m cause` — the concatenation of `m`'s version, `m`'s
description and the cause's message — in the failure state: `pre` remain
applied, with exactly their ledger entries added, the returned applied
list is exactly `pre`, and the final state is independent of `post`
(the suffix is never attempted). -/
theorem runMigrations_fail_fast (e : Engine σ) (L : List Migration)
    (st stm st' : DBState σ) (pre : List Migration) (m : Migration)
    (post l : List Migration) (cause : String)
    (hsplit : (getMigrationStatus L st).pendingMigrations = pre ++ m :: post)
    (hpre : runPending e pre st = (Except.ok l, stm))
    (hm : applyOne e m stm = (some cause, st')) :
    runMigrations e L st = (Except.error (applyFailMessage m cause), st') ∧
    st'.ledger = st.ledger ++ pre.map ledgerEntry ∧
    l = pre := by
  refine ⟨?_, ?_, runPending_ok_list e pre st hpre⟩
  · unfold runMigrations
    rw [hsplit]
    exact runPending_fail e pre m post st stm st' l cause hpre hm
  · rw [applyOne_err_ledger hm, runPending_ok_ledger e pre st hpre]

/-- Witness for C1: `[wm1, wmBad]` on a fresh database applies version 1,
fails on version 2's invalid script, and stops. -/
theorem runMigrations_fail_fast_witness :
    runMigrations logEngine [wm1, wmBad] wSt0 =
      (Except.error (applyFailMessage wmBad "syntax error"),
        DBState.mk [(1, "one")] ["U1", "FAIL"]) ∧
    (DBState.mk [(1, "one")] ["U1", "FAIL"] : DBState (List String)).ledger =
      wSt0.ledger ++ [wm1].map ledgerEntry ∧
    [wm1] = [wm1] :=
  runMigrations_fail_fast logEngine [wm1, wmBad] wSt0
    (DBState.mk [(1, "one")] ["U1"]) (DBState.mk [(1, "one")] ["U1", "FAIL"])
    [wm1] wmBad [] [wm1] "syntax error" rfl rfl rfl

/-- C5: idempotence. If `runMigrations` succeeds fully, an immediately
following call on the resulting state applies zero migrations, returns
the empty list, and leaves the state (ledger and schema) unchanged. -/
theorem runMigrations_idempotent (e : Engine σ) (L : List Migration)
    (st st' : DBState σ) (applied : List Migration)
    (h : runMigrations e L st = (Except.ok applied, st')) :
    runMigrations e L st' = (Except.ok [], st') := by
  unfold runMigrations at h
  have hled : st'.ledger =
      st.ledger ++ ((getMigrationStatus L st).pendingMigrations).map ledgerEntry :=
    runPending_ok_ledger e _ st h
  have hcov : ∀ m ∈ L, m.version ∈ ledgerVersions st' := by
    intro m hm
    show m.version ∈ st'.ledger.map Prod.fst
    rw [hled, List.map_append]
    by_cases hv : m.version ∈ ledgerVersions st
    · exact List.mem_append_left _ hv
    · refine List.mem_append_right _ ?_
      rw [List.map_map]
      exact List.mem_map.mpr ⟨m, (mem_pending_iff L st m).mpr ⟨hm, hv⟩, rfl⟩
  unfold runMigrations
  rw [pending_empty_of_covered L st' hcov]
  rfl

/-- Witness for C5: rerunning `[wm1, wm2]` on the state their run
produced does nothing. -/
theorem runMigrations_idempotent_witness :
    runMigrations logEngine [wm1, wm2] wStA = (Except.ok [], wStA) :=
  runMigrations_idempotent logEngine [wm1, wm2] wSt0 wStA [wm1, wm2] rfl

/-- C3 is refuted as stated: a migration whose up script breaks the
ledger table itself (`DROP TABLE _migrations` — exactly what sqlite would
let it do) executes its schema change against the engine, then the
ledger INSERT raises, so the run fails leaving the schema change applied
(the script is in the engine's executed-script log) with no ledger entry
for that version. -/
theorem runMigrations_not_atomic_counterexample :
    runMigrations dropEngine [wmDrop] wSt0 =
      (Except.error (applyFailMessage wmDrop "no such table: _migrations"),
        DBState.mk [] ["DROP TABLE _migrations"]) ∧
    wmDrop.up ∈ (runMigrations dropEngine [wmDrop] wSt0).2.schema ∧
    wmDrop.version ∉ ledgerVersions (runMigrations dropEngine [wmDrop] wSt0).2 := by
  refine ⟨rfl, ?_, ?_⟩ <;> decide

/-- C3 (amended): ledger entries and executed migrations correspond
except possibly at the failing migration. On success the call appends
exactly one ledger entry per applied migration, in order; on failure the
entries appended are exactly those of the cleanly applied prefix `pre` —
so every ledger entry written corresponds to a migration whose up script
succeeded, and only the single failing migration can have executed its
up script without gaining a ledger entry. -/
theorem runMigrations_ledger_accounting (e : Engine σ) (L : List Migration)
    (st : DBState σ) :
    (∀ applied st', runMigrations e L st = (Except.ok applied, st') →
      st'.ledger = st.ledger ++ applied.map ledgerEntry) ∧
    (∀ msg st', runMigrations e L st = (Except.error msg, st') →
      ∃ pre m post cause,
        (getMigrationStatus L st).pendingMigrations = pre ++ m :: post ∧
        st'.ledger = st.ledger ++ pre.map ledgerEntry ∧
        msg = applyFailMessage m cause) := by
  constructor
  · intro applied st' h
    unfold runMigrations at h
    rw [runPending_ok_list e _ st h]
    exact runPending_ok_ledger e _ st h
  · intro msg st' h
    unfold runMigrations at h
    obtain ⟨pre, m, post, l, stm, cause, hsplit, hpre, hfail, hmsg⟩ :=
      runPending_error_split e _ st h
    exact ⟨pre, m, post, cause, hsplit,
      by rw [applyOne_err_ledger hfail, runPending_ok_ledger e pre st hpre],
      hmsg⟩

/-- Witness for C3's amended statement on a fully successful run. -/
theorem runMigrations_ledger_accounting_witness :
    wStA.ledger = wSt0.ledger ++ [wm1, wm2].map ledgerEntry :=
  (runMigrations_ledger_accounting logEngine [wm1, wm2] wSt0).1
    [wm1, wm2] wStA rfl

/-- C6: permutation invariance. For declared lists with pairwise distinct
versions (the spec's data-model invariant for a declared list), any
permutation of the input yields the same pending work list — the same
migrations in the same ascending-by-version order — and an identical
`runMigrations` outcome, final ledger state included. -/
theorem runMigrations_perm_invariant (e : Engine σ) (L L' : List Migration)
    (st : DBState σ) (hperm : L.Perm L')
    (hnodup : (L.map Migration.version).Nodup) :
    (getMigrationStatus L st).pendingMigrations =
      (getMigrationStatus L' st).pendingMigrations ∧
    runMigrations e L st = runMigrations e L' st := by
  have hp := pending_eq_of_perm L L' st hperm hnodup
  exact ⟨hp, by unfold runMigrations; rw [hp]⟩

/-- Witness for C6 on a two-element permutation. -/
theorem runMigrations_perm_invariant_witness :
    (getMigrationStatus [wm2, wm1] wSt0).pendingMigrations =
      (getMigrationStatus [wm1, wm2] wSt0).pendingMigrations ∧
    runMigrations logEngine [wm2, wm1] wSt0 =
      runMigrations logEngine [wm1, wm2] wSt0 :=
  runMigrations_perm_invariant logEngine [wm2, wm1] [wm1, wm2] wSt0
    (by decide) (by decide)

end DockerSqlite
